import Mathlib

/-!
Verification of the NetworkSpeedTest repository: a shallow embedding of the
wire-protocol codec (src/hackathon/protocol.py), the server transfer handlers
(src/hackathon/server.py, src/server/src/main.py) and the client workers and
aggregator (src/hackathon/client.py). Byte strings are modelled as `List Nat`
with elements below 256; `struct` packing is modelled by explicit big-endian
arithmetic; raising `ValueError` (the spec's `FormatError`) is modelled by
`Option`/`none`.
-/

namespace NetworkSpeedTest

/-- Magic cookie `0xabcddcba` as its four big-endian bytes (protocol.py line 9). -/
def MAGIC_COOKIE : List Nat := [0xab, 0xcd, 0xdc, 0xba]

/-- Header size in bytes: 4-byte magic cookie plus 1-byte message type,
`struct.calcsize("4sB")` (protocol.py lines 10-11). -/
def HEADER_SIZE : Nat := 5

/-- Message type tag 0x2 (protocol.py line 14). -/
def OFFER_MESSAGE_TYPE : Nat := 0x2

/-- Message type tag 0x3 (protocol.py line 15). -/
def REQUEST_MESSAGE_TYPE : Nat := 0x3

/-- Message type tag 0x4 (protocol.py line 16). -/
def PAYLOAD_MESSAGE_TYPE : Nat := 0x4

/-- Big-endian packing of the value `v` into `w` bytes, the model of
`struct.pack` for one `>H` (`w = 2`) or `>Q` (`w = 8`) field; `struct.pack`
itself raises unless `v < 256 ^ w`. -/
def packBE : Nat → Nat → List Nat
  | 0, _ => []
  | w + 1, v => v / 256 ^ w :: packBE w (v % 256 ^ w)

/-- Big-endian unpacking of a byte slice, the model of `struct.unpack` on an
exactly sized slice for one `>H` or `>Q` field. -/
def unpackBE (bs : List Nat) : Nat := bs.foldl (fun a b => a * 256 + b) 0

theorem packBE_length (w v : Nat) : (packBE w v).length = w := by
  induction w generalizing v with
  | zero => rfl
  | succ w ih => simpa [packBE] using ih (v % 256 ^ w)

theorem packBE_lt (w v : Nat) (hv : v < 256 ^ w) : ∀ b ∈ packBE w v, b < 256 := by
  induction w generalizing v with
  | zero => simp [packBE]
  | succ w ih =>
    intro b hb
    simp only [packBE, List.mem_cons] at hb
    rcases hb with hb | hb
    · subst hb
      have : v / 256 ^ w < 256 := by
        apply Nat.div_lt_of_lt_mul
        calc v < 256 ^ (w + 1) := hv
        _ = 256 ^ w * 256 := by ring
      exact this
    · exact ih (v % 256 ^ w) (Nat.mod_lt _ (Nat.pos_pow_of_pos w (by norm_num))) b hb

theorem unpackBE_nil : unpackBE [] = 0 := rfl

theorem unpackBE_foldl_init (bs : List Nat) :
    ∀ a : Nat, bs.foldl (fun a b => a * 256 + b) a = a * 256 ^ bs.length + unpackBE bs := by
  induction bs with
  | nil => intro a; simp [unpackBE]
  | cons b bs ih =>
    intro a
    simp only [List.foldl_cons, List.length_cons, unpackBE]
    rw [ih (a * 256 + b), ih (0 * 256 + b)]
    ring

theorem unpackBE_cons (b : Nat) (bs : List Nat) :
    unpackBE (b :: bs) = b * 256 ^ bs.length + unpackBE bs := by
  simpa [unpackBE] using unpackBE_foldl_init bs b

theorem unpackBE_lt (bs : List Nat) (hb : ∀ b ∈ bs, b < 256) :
    unpackBE bs < 256 ^ bs.length := by
  induction bs with
  | nil => simp [unpackBE]
  | cons b bs ih =>
    rw [unpackBE_cons]
    have hb' : b < 256 := hb b (by simp)
    have ht : unpackBE bs < 256 ^ bs.length := ih (fun x hx => hb x (by simp [hx]))
    calc b * 256 ^ bs.length + unpackBE bs
        < b * 256 ^ bs.length + 256 ^ bs.length := by omega
      _ = (b + 1) * 256 ^ bs.length := by ring
      _ ≤ 256 * 256 ^ bs.length := Nat.mul_le_mul_right _ (by omega)
      _ = 256 ^ (bs.length + 1) := by ring
      _ = 256 ^ (b :: bs).length := by simp

theorem unpackBE_packBE (w v : Nat) (hv : v < 256 ^ w) : unpackBE (packBE w v) = v := by
  induction w generalizing v with
  | zero =>
    have : v = 0 := by simpa using hv
    simp [this, packBE, unpackBE]
  | succ w ih =>
    have hpos : 0 < 256 ^ w := Nat.pos_pow_of_pos w (by norm_num)
    rw [packBE, unpackBE_cons, packBE_length, ih (v % 256 ^ w) (Nat.mod_lt _ hpos)]
    exact Nat.div_add_mod' v (256 ^ w)

theorem packBE_unpackBE (bs : List Nat) (hb : ∀ b ∈ bs, b < 256) :
    packBE bs.length (unpackBE bs) = bs := by
  induction bs with
  | nil => rfl
  | cons b bs ih =>
    have hb' : b < 256 := hb b (by simp)
    have ht : ∀ x ∈ bs, x < 256 := fun x hx => hb x (by simp [hx])
    have htlt : unpackBE bs < 256 ^ bs.length := unpackBE_lt bs ht
    have hpos : 0 < 256 ^ bs.length := Nat.pos_pow_of_pos _ (by norm_num)
    rw [List.length_cons, packBE, unpackBE_cons]
    have hdiv : (b * 256 ^ bs.length + unpackBE bs) / 256 ^ bs.length = b := by
      rw [Nat.mul_comm, Nat.mul_add_div hpos, Nat.div_eq_of_lt htlt, Nat.add_zero]
    have hmod : (b * 256 ^ bs.length + unpackBE bs) % 256 ^ bs.length = unpackBE bs := by
      rw [Nat.add_comm, Nat.add_mul_mod_self_right, Nat.mod_eq_of_lt htlt]
    rw [hdiv, hmod, ih ht]

/-- Wire message variants and their fixed fields, following the
`MESSAGES_FORMATS` table (protocol.py lines 19-23): Offer is `>HH`
(udp_port, tcp_port), Request is `>Q` (file_size), Payload is `>QQ`
(total_segments, segment_index) followed by the raw trailing payload bytes. -/
inductive Message where
  | offer (udp_port tcp_port : Nat)
  | request (file_size : Nat)
  | payload (total_segments segment_index : Nat) (data : List Nat)
deriving DecidableEq, Repr

/-- Validity of a message for encoding: each fixed field fits its struct
format (`struct.pack` raises otherwise) and payload bytes are real bytes. -/
def Message.Valid : Message → Prop
  | .offer u t => u < 2 ^ 16 ∧ t < 2 ^ 16
  | .request f => f < 2 ^ 64
  | .payload n i d => n < 2 ^ 64 ∧ i < 2 ^ 64 ∧ ∀ b ∈ d, b < 256

instance (m : Message) : Decidable m.Valid := by
  cases m <;> (unfold Message.Valid; infer_instance)

/-- build_header (protocol.py lines 100-111): magic cookie followed by the
type byte. -/
def build_header (t : Nat) : List Nat := MAGIC_COOKIE ++ [t]

/-- build_message (protocol.py lines 79-97): header, then the struct-packed
fixed fields, then the raw payload bytes (nonempty only for Payload when
built by the server; the client's TCP request reuses the payload slot for the
terminator, see `tcp_request_message`). -/
def build_message : Message → List Nat
  | .offer u t => build_header OFFER_MESSAGE_TYPE ++ (packBE 2 u ++ packBE 2 t)
  | .request f => build_header REQUEST_MESSAGE_TYPE ++ packBE 8 f
  | .payload n i d => build_header PAYLOAD_MESSAGE_TYPE ++ (packBE 8 n ++ packBE 8 i ++ d)

/-- parse_header (protocol.py lines 58-76): `none` models raising
`ValueError` when the data is shorter than the header or the magic cookie
mismatches; otherwise the type byte `data[4]` is returned. -/
def parse_header (data : List Nat) : Option Nat :=
  if data.length < HEADER_SIZE then none
  else if data.take 4 = MAGIC_COOKIE then some (data.getD 4 0)
  else none

/-- parse_message (protocol.py lines 25-55): parse the header, look the type
up in `MESSAGES_FORMATS`, check the body length against the format's size,
unpack the fixed fields, and for Payload return the bytes after the fixed
fields as the payload. `none` models raising `ValueError`. -/
def parse_message (data : List Nat) : Option Message :=
  match parse_header data with
  | none => none
  | some t =>
    let body := data.drop HEADER_SIZE
    if t = OFFER_MESSAGE_TYPE then
      if body.length < 4 then none
      else some (.offer (unpackBE (body.take 2)) (unpackBE ((body.drop 2).take 2)))
    else if t = REQUEST_MESSAGE_TYPE then
      if body.length < 8 then none
      else some (.request (unpackBE (body.take 8)))
    else if t = PAYLOAD_MESSAGE_TYPE then
      if body.length < 16 then none
      else some (.payload (unpackBE (body.take 8)) (unpackBE ((body.drop 8).take 8))
        (body.drop 16))
    else none

theorem build_header_length (t : Nat) : (build_header t).length = 5 := rfl

theorem parse_header_build (t : Nat) (extra : List Nat) :
    parse_header (build_header t ++ extra) = some t := by
  simp [parse_header, build_header, MAGIC_COOKIE, HEADER_SIZE, List.getD]

theorem parse_build_offer (u t : Nat) (hu : u < 2 ^ 16) (ht : t < 2 ^ 16) (extra : List Nat) :
    parse_message (build_message (.offer u t) ++ extra) = some (.offer u t) := by
  have hu' : u < 256 ^ 2 := by norm_num at hu ⊢; omega
  have ht' : t < 256 ^ 2 := by norm_num at ht ⊢; omega
  have h1 : build_message (.offer u t) ++ extra
      = build_header OFFER_MESSAGE_TYPE ++ (packBE 2 u ++ (packBE 2 t ++ extra)) := by
    simp [build_message]
  have hlen : ¬ ((packBE 2 u ++ (packBE 2 t ++ extra)).length < 4) := by
    simp [packBE_length]
    omega
  rw [h1]
  unfold parse_message
  rw [parse_header_build]
  simp only [HEADER_SIZE, List.drop_left' (build_header_length OFFER_MESSAGE_TYPE),
    if_pos rfl, if_true, if_neg hlen,
    List.take_left' (packBE_length 2 u), List.drop_left' (packBE_length 2 u),
    List.take_left' (packBE_length 2 t),
    unpackBE_packBE 2 u hu', unpackBE_packBE 2 t ht']

theorem parse_build_request (f : Nat) (hf : f < 2 ^ 64) (extra : List Nat) :
    parse_message (build_message (.request f) ++ extra) = some (.request f) := by
  have hf' : f < 256 ^ 8 := by norm_num at hf ⊢; omega
  have h1 : build_message (.request f) ++ extra
      = build_header REQUEST_MESSAGE_TYPE ++ (packBE 8 f ++ extra) := by
    simp [build_message]
  have hlen : ¬ ((packBE 8 f ++ extra).length < 8) := by
    simp [packBE_length]
  have hne : REQUEST_MESSAGE_TYPE ≠ OFFER_MESSAGE_TYPE := by decide
  rw [h1]
  unfold parse_message
  rw [parse_header_build]
  simp only [HEADER_SIZE, List.drop_left' (build_header_length REQUEST_MESSAGE_TYPE),
    if_neg hne, if_pos rfl, if_true, if_neg hlen,
    List.take_left' (packBE_length 8 f), unpackBE_packBE 8 f hf']

theorem parse_build_payload (n i : Nat) (d : List Nat)
    (hn : n < 2 ^ 64) (hi : i < 2 ^ 64) :
    parse_message (build_message (.payload n i d)) = some (.payload n i d) := by
  have hn' : n < 256 ^ 8 := by norm_num at hn ⊢; omega
  have hi' : i < 256 ^ 8 := by norm_num at hi ⊢; omega
  have h1 : build_message (.payload n i d)
      = build_header PAYLOAD_MESSAGE_TYPE ++ (packBE 8 n ++ (packBE 8 i ++ d)) := by
    simp [build_message]
  have hlen : ¬ ((packBE 8 n ++ (packBE 8 i ++ d)).length < 16) := by
    simp [packBE_length]
    omega
  have hne1 : PAYLOAD_MESSAGE_TYPE ≠ OFFER_MESSAGE_TYPE := by decide
  have hne2 : PAYLOAD_MESSAGE_TYPE ≠ REQUEST_MESSAGE_TYPE := by decide
  have hassoc : packBE 8 n ++ (packBE 8 i ++ d) = (packBE 8 n ++ packBE 8 i) ++ d := by
    simp
  have hdrop16 : (packBE 8 n ++ (packBE 8 i ++ d)).drop 16 = d := by
    rw [hassoc]
    exact List.drop_left' (by simp [packBE_length])
  rw [h1]
  unfold parse_message
  rw [parse_header_build]
  simp only [HEADER_SIZE, List.drop_left' (build_header_length PAYLOAD_MESSAGE_TYPE),
    if_neg hne1, if_neg hne2, if_pos rfl, if_true, if_neg hlen,
    List.take_left' (packBE_length 8 n), List.drop_left' (packBE_length 8 n),
    List.take_left' (packBE_length 8 i), hdrop16,
    unpackBE_packBE 8 n hn', unpackBE_packBE 8 i hi']

/-- Known type tags: the domain of `MESSAGES_FORMATS` (protocol.py lines 19-23). -/
def knownType (t : Nat) : Prop :=
  t = OFFER_MESSAGE_TYPE ∨ t = REQUEST_MESSAGE_TYPE ∨ t = PAYLOAD_MESSAGE_TYPE

instance (t : Nat) : Decidable (knownType t) := by
  unfold knownType
  infer_instance

/-- Fixed-field body size per type, `struct.calcsize(MESSAGES_FORMATS[t])`:
4 for Offer (`>HH`), 8 for Request (`>Q`), 16 for Payload (`>QQ`). -/
def bodySize (t : Nat) : Nat :=
  if t = OFFER_MESSAGE_TYPE then 4
  else if t = REQUEST_MESSAGE_TYPE then 8
  else if t = PAYLOAD_MESSAGE_TYPE then 16
  else 0

/-- Type tag written into the header byte by `build_message`. -/
def Message.typeTag : Message → Nat
  | .offer _ _ => OFFER_MESSAGE_TYPE
  | .request _ => REQUEST_MESSAGE_TYPE
  | .payload _ _ _ => PAYLOAD_MESSAGE_TYPE

theorem parse_message_none_iff (data : List Nat) :
    parse_message data = none ↔
      data.length < HEADER_SIZE ∨ data.take 4 ≠ MAGIC_COOKIE ∨
      ¬ knownType (data.getD 4 0) ∨
      (knownType (data.getD 4 0) ∧ data.length - HEADER_SIZE < bodySize (data.getD 4 0)) := by
  unfold parse_message
  by_cases h1 : data.length < HEADER_SIZE
  · simp [parse_header, h1]
  by_cases h2 : data.take 4 = MAGIC_COOKIE
  · have hdr : parse_header data = some (data.getD 4 0) := by simp [parse_header, h1, h2]
    rw [hdr]
    set t := data.getD 4 0 with hteq
    by_cases h3 : t = OFFER_MESSAGE_TYPE
    · by_cases h4 : data.length - HEADER_SIZE < 4
      · simp [h3, h4, knownType, bodySize, h1, h2, OFFER_MESSAGE_TYPE, REQUEST_MESSAGE_TYPE, PAYLOAD_MESSAGE_TYPE]
      · simp [h3, h4, knownType, bodySize, h1, h2, OFFER_MESSAGE_TYPE, REQUEST_MESSAGE_TYPE, PAYLOAD_MESSAGE_TYPE]
    · by_cases h5 : t = REQUEST_MESSAGE_TYPE
      · by_cases h4 : data.length - HEADER_SIZE < 8
        · simp [h3, h5, h4, knownType, bodySize, h1, h2, OFFER_MESSAGE_TYPE, REQUEST_MESSAGE_TYPE, PAYLOAD_MESSAGE_TYPE]
        · simp [h3, h5, h4, knownType, bodySize, h1, h2, OFFER_MESSAGE_TYPE, REQUEST_MESSAGE_TYPE, PAYLOAD_MESSAGE_TYPE]
      · by_cases h6 : t = PAYLOAD_MESSAGE_TYPE
        · by_cases h4 : data.length - HEADER_SIZE < 16
          · simp [h3, h5, h6, h4, knownType, bodySize, h1, h2, OFFER_MESSAGE_TYPE, REQUEST_MESSAGE_TYPE, PAYLOAD_MESSAGE_TYPE]
          · simp [h3, h5, h6, h4, knownType, bodySize, h1, h2, OFFER_MESSAGE_TYPE, REQUEST_MESSAGE_TYPE, PAYLOAD_MESSAGE_TYPE]
        · simp only [OFFER_MESSAGE_TYPE, REQUEST_MESSAGE_TYPE, PAYLOAD_MESSAGE_TYPE] at h3 h5 h6
          simp [h3, h5, h6, knownType, bodySize, h1, h2, OFFER_MESSAGE_TYPE,
            REQUEST_MESSAGE_TYPE, PAYLOAD_MESSAGE_TYPE]
  · simp [parse_header, h1, h2]

theorem build_message_shape (m : Message) :
    ∃ rest, build_message m = 0xab :: 0xcd :: 0xdc :: 0xba :: m.typeTag :: rest := by
  cases m <;> exact ⟨_, rfl⟩

theorem build_message_take4 (m : Message) : (build_message m).take 4 = MAGIC_COOKIE := by
  obtain ⟨rest, hm⟩ := build_message_shape m
  rw [hm]
  rfl

theorem build_message_getD4 (m : Message) : (build_message m).getD 4 0 = m.typeTag := by
  obtain ⟨rest, hm⟩ := build_message_shape m
  rw [hm]
  rfl

theorem build_message_length_ge (m : Message) :
    HEADER_SIZE + bodySize m.typeTag ≤ (build_message m).length := by
  cases m <;>
    (simp [build_message, build_header, bodySize, Message.typeTag, packBE_length, MAGIC_COOKIE,
      HEADER_SIZE, OFFER_MESSAGE_TYPE, REQUEST_MESSAGE_TYPE, PAYLOAD_MESSAGE_TYPE]
     try omega)

theorem parse_set_magic_byte (m : Message) (i b : Nat) (hi : i < 4)
    (hb : b ≠ (build_message m).getD i 0) :
    parse_message ((build_message m).set i b) = none := by
  obtain ⟨rest, hm⟩ := build_message_shape m
  rw [parse_message_none_iff]
  refine Or.inr (Or.inl ?_)
  rw [hm] at hb ⊢
  interval_cases i <;> simp_all [MAGIC_COOKIE, List.getD]

theorem parse_truncated_body (m : Message) (k : Nat)
    (hk : k < bodySize m.typeTag) :
    parse_message ((build_message m).take (HEADER_SIZE + k)) = none := by
  have h5 : HEADER_SIZE = 5 := rfl
  have hlen5 : HEADER_SIZE + bodySize m.typeTag ≤ (build_message m).length :=
    build_message_length_ge m
  have hlt : HEADER_SIZE + k < (build_message m).length := by omega
  rw [parse_message_none_iff]
  have hlen : ((build_message m).take (HEADER_SIZE + k)).length = HEADER_SIZE + k := by
    simp [List.length_take]
    omega
  have htake4 : ((build_message m).take (HEADER_SIZE + k)).take 4 = MAGIC_COOKIE := by
    rw [List.take_take]
    have hmin : (4 : Nat) ⊓ (HEADER_SIZE + k) = 4 := by
      simp [h5]
      omega
    rw [hmin, build_message_take4]
  have hgetD : ((build_message m).take (HEADER_SIZE + k)).getD 4 0 = m.typeTag := by
    rw [List.getD_eq_getElem?_getD, List.getElem?_take]
    have h4 : (4 : Nat) < HEADER_SIZE + k := by omega
    rw [if_pos h4, ← List.getD_eq_getElem?_getD, build_message_getD4]
  refine Or.inr (Or.inr (Or.inr ?_))
  rw [hgetD, hlen]
  exact ⟨by cases m <;> simp [Message.typeTag, knownType], by omega⟩

/-- C1: codec round-trip — for every valid message (an Offer with two uint16
fields, a Request with one uint64 field, or a Payload with two uint64 fields
and an arbitrary trailing payload byte string), decoding the bytes produced
by `build_message` returns exactly the original type, fixed fields and
payload bytes. -/
theorem claim_C1_roundtrip (m : Message) (h : m.Valid) :
    parse_message (build_message m) = some m := by
  cases m with
  | offer u t => simpa using parse_build_offer u t h.1 h.2 []
  | request f => simpa using parse_build_request f h []
  | payload n i d => exact parse_build_payload n i d h.1 h.2.1

/-- Witness for C1 at one concrete message of each type. -/
theorem claim_C1_roundtrip_witness :
    parse_message (build_message (Message.offer 8080 8081)) = some (Message.offer 8080 8081)
    ∧ parse_message (build_message (Message.request 10000)) = some (Message.request 10000)
    ∧ parse_message (build_message (Message.payload 20 3 [1, 2, 255]))
      = some (Message.payload 20 3 [1, 2, 255]) :=
  ⟨claim_C1_roundtrip _ ⟨by decide, by decide⟩,
   claim_C1_roundtrip _ (by decide),
   claim_C1_roundtrip _ ⟨by decide, by decide, by decide⟩⟩

/-- C2: decode fails exactly on input shorter than the 5-byte header, a magic
cookie mismatch, an unknown type tag, or a body shorter than the type's
fixed-field size, and succeeds on every other input; in particular changing
any single byte of an encoded message's magic cookie, or truncating the body
below its fixed-field size, yields a decode failure. -/
theorem claim_C2_decode_failure_modes :
    (∀ data : List Nat, parse_message data = none ↔
        data.length < HEADER_SIZE ∨ data.take 4 ≠ MAGIC_COOKIE ∨
        ¬ knownType (data.getD 4 0) ∨
        (knownType (data.getD 4 0) ∧ data.length - HEADER_SIZE < bodySize (data.getD 4 0)))
    ∧ (∀ (m : Message) (i b : Nat), i < 4 → b ≠ (build_message m).getD i 0 →
        parse_message ((build_message m).set i b) = none)
    ∧ (∀ (m : Message) (k : Nat), k < bodySize m.typeTag →
        parse_message ((build_message m).take (HEADER_SIZE + k)) = none) :=
  ⟨parse_message_none_iff,
   fun m i b hi hb => parse_set_magic_byte m i b hi hb,
   fun m k hk => parse_truncated_body m k hk⟩

/-- Witness for C2: an empty input, a corrupted magic byte and a truncated
Request body all fail to decode. -/
theorem claim_C2_decode_failure_modes_witness :
    parse_message [] = none
    ∧ parse_message ((build_message (Message.request 5)).set 0 0) = none
    ∧ parse_message ((build_message (Message.request 5)).take (HEADER_SIZE + 7)) = none :=
  ⟨(claim_C2_decode_failure_modes.1 []).mpr (Or.inl (by decide)),
   claim_C2_decode_failure_modes.2.1 (Message.request 5) 0 0 (by decide) (by decide),
   claim_C2_decode_failure_modes.2.2 (Message.request 5) 7 (by decide)⟩

/-- TCP message terminator. Modelled from the spec: the constant
`TCP_MESSAGE_TERMINATOR` is imported from `hackathon.protocol` by client.py
but missing from the protocol source file; spec section 6 fixes TCP framing
as appending one `\n` (0x0A) terminator byte after the encoded Request, and
server.py checks the trailing byte against `ord("\n")`. -/
def TCP_MESSAGE_TERMINATOR : List Nat := [0x0a]

/-- Request bytes sent by the TCP client worker (client.py line 231):
`build_message(REQUEST_MESSAGE_TYPE, download_size, payload=TCP_MESSAGE_TERMINATOR)`,
that is, the encoded Request with the terminator appended as trailing payload
bytes. -/
def tcp_request_message (download_size : Nat) : List Nat :=
  build_message (.request download_size) ++ TCP_MESSAGE_TERMINATOR

/-- C10: for Offer and Request messages, decode silently discards trailing
bytes beyond the fixed-field body — appending any suffix leaves the decoded
message unchanged — and the TCP client's request message is exactly an
encoded Request with the newline terminator as trailing bytes, which still
decodes to the same Request. -/
theorem claim_C10_trailing_bytes_ignored :
    (∀ (u t : Nat) (s : List Nat), u < 2 ^ 16 → t < 2 ^ 16 →
        parse_message (build_message (.offer u t) ++ s)
          = parse_message (build_message (.offer u t)))
    ∧ (∀ (f : Nat) (s : List Nat), f < 2 ^ 64 →
        parse_message (build_message (.request f) ++ s)
          = parse_message (build_message (.request f)))
    ∧ (∀ f : Nat, f < 2 ^ 64 →
        tcp_request_message f = build_message (.request f) ++ TCP_MESSAGE_TERMINATOR
        ∧ parse_message (tcp_request_message f) = some (.request f)) := by
  refine ⟨fun u t s hu ht => ?_, fun f s hf => ?_, fun f hf => ⟨rfl, ?_⟩⟩
  · rw [parse_build_offer u t hu ht s]
    have h0 := parse_build_offer u t hu ht []
    rw [List.append_nil] at h0
    rw [h0]
  · rw [parse_build_request f hf s]
    have h0 := parse_build_request f hf []
    rw [List.append_nil] at h0
    rw [h0]
  · exact parse_build_request f hf TCP_MESSAGE_TERMINATOR

/-- Witness for C10 at concrete Offer/Request messages and suffixes. -/
theorem claim_C10_trailing_bytes_ignored_witness :
    parse_message (build_message (.offer 8080 8081) ++ [1, 2, 3])
        = parse_message (build_message (.offer 8080 8081))
    ∧ parse_message (build_message (.request 1024) ++ [0])
        = parse_message (build_message (.request 1024))
    ∧ parse_message (tcp_request_message 1024) = some (.request 1024) :=
  ⟨claim_C10_trailing_bytes_ignored.1 8080 8081 [1, 2, 3] (by decide) (by decide),
   claim_C10_trailing_bytes_ignored.2.1 1024 [0] (by decide),
   (claim_C10_trailing_bytes_ignored.2.2 1024 (by decide)).2⟩

/-- Segment capacity `UDP_PAYLOAD_SIZE` (server.py line 10). -/
def UDP_PAYLOAD_SIZE : Nat := 512

/-- Synthetic filler content `b"a" * n` (server.py lines 135 and 179). -/
def filler (n : Nat) : List Nat := List.replicate n 0x61

/-- send_udp_payloads (server.py lines 164-195): the ordered list of Payload
messages built for one request, one per loop iteration — element `i` is the
argument of the `i`-th `build_payload`/`sendto` call, with
`total_segments = (file_size + payload_size - 1) // payload_size` and a
filler slice of `min(payload_size, file_size - i * payload_size)` bytes. -/
def send_udp_payloads (file_size payload_size : Nat) : List Message :=
  let total_segments := (file_size + payload_size - 1) / payload_size
  (List.range total_segments).map fun segment_number =>
    let start_byte := segment_number * payload_size
    let remaining_bytes := file_size - start_byte
    let current_payload_size := min payload_size remaining_bytes
    .payload total_segments segment_number (filler current_payload_size)

/-- Length of the trailing payload data carried by a message. -/
def payloadDataLength : Message → Nat
  | .payload _ _ d => d.length
  | _ => 0

theorem sum_min_slices (p : Nat) (hp : 0 < p) :
    ∀ fs, 0 < fs →
      ((List.range ((fs - 1) / p + 1)).map fun i => min p (fs - i * p)).sum = fs := by
  intro fs
  induction fs using Nat.strong_induction_on with
  | _ fs ih =>
    intro hfs
    by_cases hle : fs ≤ p
    · have h1 : (fs - 1) / p = 0 := Nat.div_eq_of_lt (by omega)
      have hr : List.range 1 = [0] := rfl
      simp [h1, hr]
      omega
    · have hgt : p < fs := by omega
      have h1 : (fs - 1) / p = (fs - p - 1) / p + 1 := by
        rw [show fs - 1 = (fs - p - 1) + p by omega, Nat.add_div_right _ hp]
      rw [h1, List.range_succ_eq_map, List.map_cons, List.sum_cons, List.map_map]
      have hmap : (List.map ((fun i => min p (fs - i * p)) ∘ Nat.succ)
            (List.range ((fs - p - 1) / p + 1)))
          = List.map (fun i => min p ((fs - p) - i * p))
              (List.range ((fs - p - 1) / p + 1)) := by
        apply List.map_congr_left
        intro i _
        have hstep : fs - (i + 1) * p = fs - p - i * p := by
          have : (i + 1) * p = i * p + p := by ring
          omega
        simp [Function.comp, Nat.succ_eq_add_one, hstep]
      rw [hmap, ih (fs - p) (by omega) (by omega)]
      omega

set_option maxRecDepth 100000 in
/-- C3: for every positive file_size, the UDP payload sender emits exactly
`ceil(file_size / 512)` Payload messages, indexed 0..n-1 in order, each
carrying the same total_segments value and a filler slice of
`min(512, file_size - 512*i)` bytes, with the slice lengths summing to
file_size; in particular file_size = 10000 yields 20 segments, 0..18 of 512
bytes and segment 19 of 272 bytes. -/
theorem claim_C3_udp_segmentation (file_size : Nat) (h : 0 < file_size) :
    (send_udp_payloads file_size UDP_PAYLOAD_SIZE).length
        = (file_size + UDP_PAYLOAD_SIZE - 1) / UDP_PAYLOAD_SIZE
    ∧ (∀ i (hi : i < (send_udp_payloads file_size UDP_PAYLOAD_SIZE).length),
        (send_udp_payloads file_size UDP_PAYLOAD_SIZE).get ⟨i, hi⟩
          = Message.payload ((file_size + UDP_PAYLOAD_SIZE - 1) / UDP_PAYLOAD_SIZE) i
              (filler (min UDP_PAYLOAD_SIZE (file_size - i * UDP_PAYLOAD_SIZE))))
    ∧ ((send_udp_payloads file_size UDP_PAYLOAD_SIZE).map payloadDataLength).sum = file_size
    ∧ (send_udp_payloads 10000 UDP_PAYLOAD_SIZE).map payloadDataLength
        = List.replicate 19 512 ++ [272] := by
  have hp : 0 < UDP_PAYLOAD_SIZE := by decide
  have hceil : (file_size + UDP_PAYLOAD_SIZE - 1) / UDP_PAYLOAD_SIZE
      = (file_size - 1) / UDP_PAYLOAD_SIZE + 1 := by
    rw [show file_size + UDP_PAYLOAD_SIZE - 1 = (file_size - 1) + UDP_PAYLOAD_SIZE by omega,
      Nat.add_div_right _ hp]
  refine ⟨by simp [send_udp_payloads], fun i hi => ?_, ?_, by decide⟩
  · simp only [send_udp_payloads, List.get_map, List.get_range]
  · have hmap : (send_udp_payloads file_size UDP_PAYLOAD_SIZE).map payloadDataLength
        = (List.range ((file_size + UDP_PAYLOAD_SIZE - 1) / UDP_PAYLOAD_SIZE)).map
            fun i => min UDP_PAYLOAD_SIZE (file_size - i * UDP_PAYLOAD_SIZE) := by
      simp [send_udp_payloads, List.map_map, Function.comp, payloadDataLength, filler]
    rw [hmap, hceil]
    exact sum_min_slices UDP_PAYLOAD_SIZE hp file_size h

/-- Witness for C3 at file_size = 10000. -/
theorem claim_C3_udp_segmentation_witness :
    0 < 10000
    ∧ (send_udp_payloads 10000 UDP_PAYLOAD_SIZE).length
        = (10000 + UDP_PAYLOAD_SIZE - 1) / UDP_PAYLOAD_SIZE
    ∧ ((send_udp_payloads 10000 UDP_PAYLOAD_SIZE).map payloadDataLength).sum = 10000 :=
  ⟨by decide, (claim_C3_udp_segmentation 10000 (by decide)).1,
   (claim_C3_udp_segmentation 10000 (by decide)).2.2.1⟩

/-- parse_request (src/server/src/main.py lines 68-69):
`struct.unpack(">Q", data)[0]`, where `struct.unpack` demands exactly 8 bytes
and raises otherwise. src/hackathon/server.py imports this symbol from
`hackathon.protocol`, where it is absent; the sibling definition in
src/server/src/main.py is the one modelled. -/
def parse_request (data : List Nat) : Option Nat :=
  if data.length = 8 then some (unpackBE data) else none

/-- handle_tcp_client (server.py lines 102-143) over an idealized inbound TCP
stream: `stream` is the whole byte sequence the peer sends and `recv k` is
modelled as taking the next `k` available bytes. The handler reads the 5-byte
header, requires a Request type, reads 9 more bytes (8-byte body plus the
terminator), requires the last of them to be `\n`, and answers with
`"a" * file_size`. `some response` models writing a response; `none` models
raising and closing without writing. -/
def handle_tcp_client (stream : List Nat) : Option (List Nat) :=
  let header_data := stream.take HEADER_SIZE
  if header_data = [] then none
  else if header_data.length < HEADER_SIZE then none
  else
    match parse_header header_data with
    | none => none
    | some t =>
      if t ≠ REQUEST_MESSAGE_TYPE then none
      else
        let message_data := (stream.drop HEADER_SIZE).take 9
        if message_data = [] then none
        else if message_data.length < 9 then none
        else if message_data.getLast? ≠ some 0x0a then none
        else
          match parse_request message_data.dropLast with
          | none => none
          | some file_size => some (filler file_size)

theorem handle_tcp_client_valid (file_size : Nat) (hf : file_size < 2 ^ 64)
    (rest : List Nat) :
    handle_tcp_client (tcp_request_message file_size ++ rest) = some (filler file_size) := by
  have hf' : file_size < 256 ^ 8 := by norm_num at hf ⊢; omega
  have hlen9 : (packBE 8 file_size ++ [0x0a]).length = 9 := by simp [packBE_length]
  have hshape : tcp_request_message file_size ++ rest
      = build_header REQUEST_MESSAGE_TYPE ++ ((packBE 8 file_size ++ [0x0a]) ++ rest) := by
    simp [tcp_request_message, build_message, TCP_MESSAGE_TERMINATOR]
  have htake : (build_header REQUEST_MESSAGE_TYPE
        ++ ((packBE 8 file_size ++ [0x0a]) ++ rest)).take HEADER_SIZE
      = build_header REQUEST_MESSAGE_TYPE := List.take_left' rfl
  have hdrop : (build_header REQUEST_MESSAGE_TYPE
        ++ ((packBE 8 file_size ++ [0x0a]) ++ rest)).drop HEADER_SIZE
      = (packBE 8 file_size ++ [0x0a]) ++ rest := List.drop_left' rfl
  have hhd : parse_header (build_header REQUEST_MESSAGE_TYPE) = some REQUEST_MESSAGE_TYPE := by
    have h0 := parse_header_build REQUEST_MESSAGE_TYPE []
    rwa [List.append_nil] at h0
  have hmd : ((packBE 8 file_size ++ [0x0a]) ++ rest).take 9
      = packBE 8 file_size ++ [0x0a] := List.take_left' hlen9
  have hpr : parse_request (packBE 8 file_size ++ [0x0a]).dropLast = some file_size := by
    rw [List.dropLast_concat]
    unfold parse_request
    rw [if_pos (packBE_length 8 file_size), unpackBE_packBE 8 file_size hf']
  rw [hshape]
  unfold handle_tcp_client
  simp only [htake, hdrop, hhd, hmd, hpr, List.getLast?_concat, hlen9]
  norm_num [build_header, MAGIC_COOKIE, HEADER_SIZE, REQUEST_MESSAGE_TYPE]
  intro hcon
  exact absurd hcon (by decide)

theorem handle_tcp_client_some_shape (stream r : List Nat)
    (hb : ∀ b ∈ stream, b < 256)
    (hsome : handle_tcp_client stream = some r) :
    ∃ file_size rest, file_size < 2 ^ 64
      ∧ stream = tcp_request_message file_size ++ rest := by
  simp only [handle_tcp_client] at hsome
  by_cases hA : stream.take HEADER_SIZE = []
  · rw [if_pos hA] at hsome
    exact Option.noConfusion hsome
  rw [if_neg hA] at hsome
  by_cases hB : (stream.take HEADER_SIZE).length < HEADER_SIZE
  · rw [if_pos hB] at hsome
    exact Option.noConfusion hsome
  rw [if_neg hB] at hsome
  cases hph : parse_header (stream.take HEADER_SIZE) with
  | none =>
    rw [hph] at hsome
    dsimp only [] at hsome
    exact Option.noConfusion hsome
  | some t =>
    rw [hph] at hsome
    dsimp only [] at hsome
    by_cases ht : t = REQUEST_MESSAGE_TYPE
    case neg =>
      rw [if_pos ht] at hsome
      exact Option.noConfusion hsome
    subst ht
    rw [if_neg (not_not_intro rfl)] at hsome
    by_cases hC : (stream.drop HEADER_SIZE).take 9 = []
    · rw [if_pos hC] at hsome
      exact Option.noConfusion hsome
    rw [if_neg hC] at hsome
    by_cases hD : ((stream.drop HEADER_SIZE).take 9).length < 9
    · rw [if_pos hD] at hsome
      exact Option.noConfusion hsome
    rw [if_neg hD] at hsome
    by_cases hE : ((stream.drop HEADER_SIZE).take 9).getLast? = some 0x0a
    case neg =>
      rw [if_pos hE] at hsome
      exact Option.noConfusion hsome
    rw [if_neg (not_not_intro hE)] at hsome
    cases hpr : parse_request ((stream.drop HEADER_SIZE).take 9).dropLast with
    | none =>
      rw [hpr] at hsome
      dsimp only [] at hsome
      exact Option.noConfusion hsome
    | some fs =>
      have hlen5 : 5 ≤ stream.length := by
        simp [List.length_take, HEADER_SIZE] at hB
        omega
      have hlen14 : 14 ≤ stream.length := by
        simp [List.length_take, List.length_drop, HEADER_SIZE] at hD
        omega
      have hmdlen : ((stream.drop HEADER_SIZE).take 9).length = 9 := by
        simp [List.length_take, List.length_drop, HEADER_SIZE]
        omega
      have hp8len : (((stream.drop HEADER_SIZE).take 9).dropLast).length = 8 := by
        rw [List.length_dropLast, hmdlen]
      have hp8sub : ((stream.drop HEADER_SIZE).take 9).dropLast ⊆ stream := fun x hx =>
        List.drop_subset _ _ (List.take_subset _ _ (List.dropLast_subset _ hx))
      have hp8lt : ∀ b ∈ ((stream.drop HEADER_SIZE).take 9).dropLast, b < 256 :=
        fun b hbm => hb b (hp8sub hbm)
      have hfs : fs = unpackBE (((stream.drop HEADER_SIZE).take 9).dropLast) := by
        unfold parse_request at hpr
        rw [if_pos hp8len] at hpr
        exact (Option.some_injective _ hpr).symm
      have hfslt : fs < 2 ^ 64 := by
        have hub := unpackBE_lt _ hp8lt
        rw [hp8len] at hub
        rw [hfs]
        norm_num at hub ⊢
        omega
      have hpack : packBE 8 fs = ((stream.drop HEADER_SIZE).take 9).dropLast := by
        rw [hfs, ← hp8len, packBE_unpackBE _ hp8lt]
      have hmd : (stream.drop HEADER_SIZE).take 9
          = ((stream.drop HEADER_SIZE).take 9).dropLast ++ [0x0a] := by
        have hgl := List.dropLast_append_getLast hC
        have hgl2 := List.getLast?_eq_getLast _ hC
        rw [hE] at hgl2
        have hlast : ((stream.drop HEADER_SIZE).take 9).getLast hC = 0x0a :=
          Option.some_injective _ hgl2.symm
        rw [← hlast]
        exact hgl.symm
      have hM : (stream.take HEADER_SIZE).take 4 = MAGIC_COOKIE := by
        unfold parse_header at hph
        rw [if_neg hB] at hph
        by_cases hM0 : (stream.take HEADER_SIZE).take 4 = MAGIC_COOKIE
        · exact hM0
        · rw [if_neg hM0] at hph
          cases hph
      have htag : (stream.take HEADER_SIZE).getD 4 0 = REQUEST_MESSAGE_TYPE := by
        unfold parse_header at hph
        rw [if_neg hB, if_pos hM] at hph
        exact Option.some_injective _ hph
      have htake4 : stream.take 4 = MAGIC_COOKIE := by
        rw [← hM, List.take_take]
        norm_num [HEADER_SIZE]
      have hgd : stream.getD 4 0 = REQUEST_MESSAGE_TYPE := by
        rw [← htag, List.getD_eq_getElem?_getD, List.getD_eq_getElem?_getD,
          List.getElem?_take]
        norm_num [HEADER_SIZE]
      have h4some : stream[4]? = some REQUEST_MESSAGE_TYPE := by
        have h4lt : 4 < stream.length := by omega
        rw [List.getD_eq_getElem?_getD, List.getElem?_eq_getElem h4lt] at hgd
        rw [List.getElem?_eq_getElem h4lt]
        simpa using hgd
      have htake5 : stream.take HEADER_SIZE = MAGIC_COOKIE ++ [REQUEST_MESSAGE_TYPE] := by
        rw [show HEADER_SIZE = 4 + 1 from rfl, List.take_succ, htake4, h4some]
        rfl
      have hsplit : stream
          = stream.take HEADER_SIZE ++ ((stream.drop HEADER_SIZE).take 9 ++ stream.drop 14) := by
        have h3 : (stream.drop HEADER_SIZE).drop 9 = stream.drop 14 := by
          rw [List.drop_drop]
          norm_num [HEADER_SIZE]
        have h2 := List.take_append_drop 9 (stream.drop HEADER_SIZE)
        rw [← h3, h2, List.take_append_drop]
      have hfinal : stream = tcp_request_message fs ++ stream.drop 14 := by
        conv_lhs => rw [hsplit, htake5, hmd, ← hpack]
        simp [tcp_request_message, build_message, build_header, TCP_MESSAGE_TERMINATOR]
      exact ⟨fs, stream.drop 14, hfslt, hfinal⟩

/-- C4: on a stream whose initial bytes are a validly encoded Request
followed by the newline terminator, the server's TCP handler writes exactly
file_size filler bytes as its only response; on every other stream it closes
without writing anything. -/
theorem claim_C4_tcp_handler :
    (∀ (file_size : Nat) (rest : List Nat), file_size < 2 ^ 64 →
        handle_tcp_client (tcp_request_message file_size ++ rest) = some (filler file_size)
        ∧ (filler file_size).length = file_size)
    ∧ (∀ stream : List Nat, (∀ b ∈ stream, b < 256) →
        (¬ ∃ file_size rest, file_size < 2 ^ 64
            ∧ stream = tcp_request_message file_size ++ rest) →
        handle_tcp_client stream = none) := by
  constructor
  · intro fs rest hf
    exact ⟨handle_tcp_client_valid fs hf rest, by simp [filler]⟩
  · intro stream hb hnex
    cases hh : handle_tcp_client stream with
    | none => rfl
    | some r => exact absurd (handle_tcp_client_some_shape stream r hb hh) hnex

/-- Witness for C4: a concrete valid request stream gets a 3-byte response;
a garbage stream gets none. -/
theorem claim_C4_tcp_handler_witness :
    handle_tcp_client (tcp_request_message 3 ++ [7, 7]) = some (filler 3)
    ∧ handle_tcp_client [1, 2, 3] = none :=
  ⟨(claim_C4_tcp_handler.1 3 [7, 7] (by decide)).1,
   claim_C4_tcp_handler.2 [1, 2, 3] (by decide) (by
    rintro ⟨fs, rest, hlt, heq⟩
    have hlen := congrArg List.length heq
    simp [tcp_request_message, build_message, build_header, TCP_MESSAGE_TERMINATOR,
      MAGIC_COOKIE, packBE_length] at hlen)⟩

/-- Idle receive timeout in seconds, `UDP_TIMEOUT` (client.py line 10). -/
def UDP_TIMEOUT : ℚ := 1

/-- Receive loop of perform_udp_download (client.py lines 205-214), folded
over the datagrams delivered before the idle timeout fires; the state is
(segments_received_count, expected_segments_count, total_data_received).
Only a datagram decoding as Payload unpacks into the three-element tuple the
loop destructures, updating all three counters; any other datagram raises
`ValueError` (from decode or from tuple unpacking), is logged and skipped. -/
def udpRecvLoop : List (List Nat) → Nat × Nat × Nat → Nat × Nat × Nat
  | [], st => st
  | d :: rest, (seg, exp, tot) =>
    match parse_message d with
    | some (.payload n _ p) => udpRecvLoop rest (seg + 1, n, tot + p.length)
    | _ => udpRecvLoop rest (seg, exp, tot)

/-- perform_udp_download (client.py lines 181-219): `datagrams` is the
sequence of datagrams received before the timeout, `elapsed` the measured
`end_time - start_time` in seconds. Returns (duration_seconds,
total_data_received, segments_received_count, expected_segments_count), with
the counters initialized to (0, 1, 0) and the idle-timeout interval
subtracted from the measured duration. -/
def perform_udp_download (datagrams : List (List Nat)) (elapsed : ℚ) :
    ℚ × Nat × Nat × Nat :=
  let st := udpRecvLoop datagrams (0, 1, 0)
  (elapsed - UDP_TIMEOUT, st.2.2, st.1, st.2.1)

/-- Whether a datagram decodes as a Payload message. -/
def decodesAsPayload (d : List Nat) : Bool :=
  match parse_message d with
  | some (.payload _ _ _) => true
  | _ => false

/-- Payload byte count carried by a datagram decoding as Payload. -/
def payloadBytes (d : List Nat) : Nat :=
  match parse_message d with
  | some (.payload _ _ p) => p.length
  | _ => 0

/-- total_segments header field of a datagram decoding as Payload. -/
def payloadTotalField (d : List Nat) : Option Nat :=
  match parse_message d with
  | some (.payload n _ _) => some n
  | _ => none

theorem payloadTotalField_eq_none (d : List Nat) (hd : decodesAsPayload d = false) :
    payloadTotalField d = none := by
  cases hp : parse_message d with
  | none => simp [payloadTotalField, hp]
  | some m =>
    cases m with
    | offer u t => simp [payloadTotalField, hp]
    | request f => simp [payloadTotalField, hp]
    | payload n i p => simp [decodesAsPayload, hp] at hd

theorem payloadTotalField_some (d : List Nat) (n : Nat)
    (h : payloadTotalField d = some n) :
    ∃ i p, parse_message d = some (.payload n i p) := by
  cases hp : parse_message d with
  | none =>
    rw [payloadTotalField, hp] at h
    exact Option.noConfusion h
  | some m =>
    cases m with
    | offer u t =>
      rw [payloadTotalField, hp] at h
      exact Option.noConfusion h
    | request f =>
      rw [payloadTotalField, hp] at h
      exact Option.noConfusion h
    | payload k i p =>
      rw [payloadTotalField, hp] at h
      dsimp only [] at h
      have hk : k = n := Option.some_injective _ h
      exact ⟨i, p, by rw [hk]⟩

theorem udpRecvLoop_cons_payload (d : List Nat) (rest : List (List Nat))
    (seg exp tot n i : Nat) (p : List Nat)
    (hp : parse_message d = some (.payload n i p)) :
    udpRecvLoop (d :: rest) (seg, exp, tot)
      = udpRecvLoop rest (seg + 1, n, tot + p.length) := by
  simp only [udpRecvLoop, hp]

theorem udpRecvLoop_cons_skip (d : List Nat) (rest : List (List Nat))
    (seg exp tot : Nat) (h : decodesAsPayload d = false) :
    udpRecvLoop (d :: rest) (seg, exp, tot) = udpRecvLoop rest (seg, exp, tot) := by
  cases hp : parse_message d with
  | none => simp only [udpRecvLoop, hp]
  | some m =>
    cases m with
    | offer u t => simp only [udpRecvLoop, hp]
    | request f => simp only [udpRecvLoop, hp]
    | payload n i p => simp [decodesAsPayload, hp] at h

theorem udpRecvLoop_spec (datagrams : List (List Nat)) :
    ∀ seg exp tot, udpRecvLoop datagrams (seg, exp, tot)
      = (seg + (datagrams.filter decodesAsPayload).length,
         (datagrams.filterMap payloadTotalField).getLastD exp,
         tot + ((datagrams.filter decodesAsPayload).map payloadBytes).sum) := by
  induction datagrams with
  | nil => intro seg exp tot; simp [udpRecvLoop]
  | cons d rest ih =>
    intro seg exp tot
    by_cases hb : decodesAsPayload d = true
    · obtain ⟨n, i, p, hp⟩ : ∃ n i p, parse_message d = some (.payload n i p) := by
        unfold decodesAsPayload at hb
        cases hq : parse_message d with
        | none => rw [hq] at hb; exact Bool.noConfusion hb
        | some m =>
          cases m with
          | offer u t => rw [hq] at hb; exact Bool.noConfusion hb
          | request f => rw [hq] at hb; exact Bool.noConfusion hb
          | payload n i p => exact ⟨n, i, p, rfl⟩
      have hf : payloadTotalField d = some n := by simp [payloadTotalField, hp]
      have hpb : payloadBytes d = p.length := by simp [payloadBytes, hp]
      rw [udpRecvLoop_cons_payload d rest seg exp tot n i p hp, ih,
        List.filter_cons, hb, if_pos rfl, List.filterMap_cons, hf]
      dsimp only []
      rw [List.getLastD_cons]
      simp only [List.length_cons, List.map_cons, List.sum_cons, hpb, Prod.mk.injEq]
      refine ⟨by omega, by trivial, by omega⟩
    · have hb' : decodesAsPayload d = false := by
        cases hq : decodesAsPayload d
        · rfl
        · exact absurd hq hb
      have hf : payloadTotalField d = none := payloadTotalField_eq_none d hb'
      rw [udpRecvLoop_cons_skip d rest seg exp tot hb', ih, List.filter_cons, hb',
        List.filterMap_cons, hf]
      simp

/-- C5: for every sequence of datagrams ended by the idle timeout, the UDP
worker returns duration = elapsed minus the 1-second timeout, bytes and
segment counts over exactly the datagrams that decoded as Payload, and
segments_expected from the last decoded Payload header (1 when none);
datagrams that fail to decode are skipped without affecting any count and
never terminate the loop. -/
theorem claim_C5_udp_worker (datagrams : List (List Nat)) (elapsed : ℚ) :
    perform_udp_download datagrams elapsed
      = (elapsed - UDP_TIMEOUT,
         ((datagrams.filter decodesAsPayload).map payloadBytes).sum,
         (datagrams.filter decodesAsPayload).length,
         (datagrams.filterMap payloadTotalField).getLastD 1)
    ∧ (∀ (pre post : List (List Nat)) (d : List Nat), decodesAsPayload d = false →
        perform_udp_download (pre ++ d :: post) elapsed
          = perform_udp_download (pre ++ post) elapsed) := by
  constructor
  · simp [perform_udp_download, udpRecvLoop_spec]
  · intro pre post d hd
    simp [perform_udp_download, udpRecvLoop_spec, List.filter_append, List.filter_cons,
      List.filterMap_append, List.filterMap_cons, hd, payloadTotalField_eq_none d hd]

/-- Witness for C5: a malformed datagram in the middle of a burst leaves the
worker result unchanged. -/
theorem claim_C5_udp_worker_witness :
    perform_udp_download ([build_message (Message.payload 2 0 [97])]
        ++ [9] :: [build_message (Message.payload 2 1 [97, 97])]) 5
      = perform_udp_download ([build_message (Message.payload 2 0 [97])]
        ++ [build_message (Message.payload 2 1 [97, 97])]) 5 :=
  (claim_C5_udp_worker [] 5).2 [build_message (Message.payload 2 0 [97])]
    [build_message (Message.payload 2 1 [97, 97])] [9] (by decide)

/-- Conversion factor BITS_IN_BYTE (client.py line 11). -/
def BITS_IN_BYTE : ℚ := 8

/-- Result returned by one TCP worker: (duration seconds, bytes received),
the tuple returned by perform_tcp_download (client.py line 244). -/
structure TcpResult where
  duration : ℚ
  bytes_received : Nat
deriving DecidableEq

/-- Result returned by one UDP worker, the tuple returned by
perform_udp_download (client.py line 219). -/
structure UdpResult where
  duration : ℚ
  bytes_received : Nat
  segments_received : Nat
  segments_expected : Nat
deriving DecidableEq

/-- Per-result speed `total_data_received * BITS_IN_BYTE / duration`
(client.py line 57). -/
def tcpSpeed (r : TcpResult) : ℚ := r.bytes_received * BITS_IN_BYTE / r.duration

/-- Per-result speed `total_data_received * BITS_IN_BYTE / duration`
(client.py line 89). -/
def udpSpeed (r : UdpResult) : ℚ := r.bytes_received * BITS_IN_BYTE / r.duration

/-- Percentage of packets received (client.py line 90):
`segments_received / segments_expected * 100` when `segments_expected > 0`,
else 0. -/
def percentageReceived (r : UdpResult) : ℚ :=
  if 0 < r.segments_expected then
    (r.segments_received : ℚ) / r.segments_expected * 100
  else 0

/-- Python `max` over a list (`max(all_speeds)`; the empty case is
unreachable behind the nonemptiness guard and is given a dummy value 0). -/
def listMax : List ℚ → ℚ
  | [] => 0
  | x :: xs => xs.foldl max x

/-- Python `min` over a list, as `listMax`. -/
def listMin : List ℚ → ℚ
  | [] => 0
  | x :: xs => xs.foldl min x

/-- process_tcp_results (client.py lines 47-74): each future either raised
(`none`, caught, reported and skipped) or returned a result; `all_speeds`
collects the speeds of the completed ones, and a summary
(max, min, average) is produced only when `all_speeds` is nonempty. -/
def process_tcp_results (futures : List (Option TcpResult)) : Option (ℚ × ℚ × ℚ) :=
  let all_speeds := futures.filterMap fun f => f.map tcpSpeed
  if all_speeds = [] then none
  else some (listMax all_speeds, listMin all_speeds,
    all_speeds.sum / all_speeds.length)

/-- process_udp_results (client.py lines 78-110): like the TCP aggregator
plus the average packet loss
`100 - sum(percentages) / len(percentages)` (0 substituted when the
percentage list is empty). -/
def process_udp_results (futures : List (Option UdpResult)) :
    Option (ℚ × ℚ × ℚ × ℚ) :=
  let completed := futures.filterMap id
  let all_speeds := completed.map udpSpeed
  let total_percentage_received := completed.map percentageReceived
  if all_speeds = [] then none
  else some (listMax all_speeds, listMin all_speeds,
    all_speeds.sum / all_speeds.length,
    100 - (if total_percentage_received = [] then 0
      else total_percentage_received.sum / total_percentage_received.length))

theorem foldl_max_le (l : List ℚ) :
    ∀ a, a ≤ l.foldl max a ∧ ∀ x ∈ l, x ≤ l.foldl max a := by
  induction l with
  | nil => simp
  | cons b l ih =>
    intro a
    refine ⟨?_, ?_⟩
    · calc a ≤ max a b := le_max_left _ _
        _ ≤ l.foldl max (max a b) := (ih (max a b)).1
    · intro x hx
      rcases List.mem_cons.mp hx with rfl | hx
      · calc x ≤ max a x := le_max_right _ _
          _ ≤ l.foldl max (max a x) := (ih (max a x)).1
      · exact (ih (max a b)).2 x hx

theorem foldl_max_mem (l : List ℚ) : ∀ a, l.foldl max a = a ∨ l.foldl max a ∈ l := by
  induction l with
  | nil => intro a; left; rfl
  | cons b l ih =>
    intro a
    rcases ih (max a b) with h | h
    · rcases max_cases a b with ⟨hm, _⟩ | ⟨hm, _⟩
      · left; rw [List.foldl_cons, h, hm]
      · right; rw [List.foldl_cons, h, hm]; exact List.mem_cons_self _ _
    · right; exact List.mem_cons_of_mem _ h

theorem foldl_min_le (l : List ℚ) :
    ∀ a, l.foldl min a ≤ a ∧ ∀ x ∈ l, l.foldl min a ≤ x := by
  induction l with
  | nil => simp
  | cons b l ih =>
    intro a
    refine ⟨?_, ?_⟩
    · calc l.foldl min (min a b) ≤ min a b := (ih (min a b)).1
        _ ≤ a := min_le_left _ _
    · intro x hx
      rcases List.mem_cons.mp hx with rfl | hx
      · calc l.foldl min (min a x) ≤ min a x := (ih (min a x)).1
          _ ≤ x := min_le_right _ _
      · exact (ih (min a b)).2 x hx

theorem foldl_min_mem (l : List ℚ) : ∀ a, l.foldl min a = a ∨ l.foldl min a ∈ l := by
  induction l with
  | nil => intro a; left; rfl
  | cons b l ih =>
    intro a
    rcases ih (min a b) with h | h
    · rcases min_cases a b with ⟨hm, _⟩ | ⟨hm, _⟩
      · left; rw [List.foldl_cons, h, hm]
      · right; rw [List.foldl_cons, h, hm]; exact List.mem_cons_self _ _
    · right; exact List.mem_cons_of_mem _ h

theorem listMax_spec (l : List ℚ) (h : l ≠ []) :
    listMax l ∈ l ∧ ∀ x ∈ l, x ≤ listMax l := by
  cases l with
  | nil => exact absurd rfl h
  | cons a l =>
    refine ⟨?_, ?_⟩
    · rcases foldl_max_mem l a with h1 | h1
      · simp only [listMax, h1]
        exact List.mem_cons_self _ _
      · simp only [listMax]
        exact List.mem_cons_of_mem _ h1
    · intro x hx
      rcases List.mem_cons.mp hx with rfl | hx
      · exact (foldl_max_le l x).1
      · exact (foldl_max_le l a).2 x hx

theorem listMin_spec (l : List ℚ) (h : l ≠ []) :
    listMin l ∈ l ∧ ∀ x ∈ l, listMin l ≤ x := by
  cases l with
  | nil => exact absurd rfl h
  | cons a l =>
    refine ⟨?_, ?_⟩
    · rcases foldl_min_mem l a with h1 | h1
      · simp only [listMin, h1]
        exact List.mem_cons_self _ _
      · simp only [listMin]
        exact List.mem_cons_of_mem _ h1
    · intro x hx
      rcases List.mem_cons.mp hx with rfl | hx
      · exact (foldl_min_le l x).1
      · exact (foldl_min_le l a).2 x hx

theorem filterMap_map_option {α β : Type} (g : α → β) (l : List (Option α)) :
    (l.filterMap fun f => f.map g) = (l.filterMap id).map g := by
  induction l with
  | nil => rfl
  | cons a l ih => cases a <;> simp [ih]

theorem filterMap_id_map_some {α : Type} (l : List α) : (l.map some).filterMap id = l := by
  induction l with
  | nil => rfl
  | cons a l ih => simp [ih]

/-- C6: over every nonempty list of completed worker results the aggregator
reports the maximum, minimum and arithmetic mean of the per-result speeds
`bytes * 8 / duration`, and for UDP additionally
`loss = 100 - average(segments_received / segments_expected * 100)` with a
zero segments_expected treated as 0% received; in particular results
[(1s, 1000 B), (2s, 4000 B)] yield max 16000, min 8000 and average 12000
bits/s. -/
theorem claim_C6_aggregation :
    (∀ rs : List TcpResult, rs ≠ [] →
      ∃ mx mn avg, process_tcp_results (rs.map some) = some (mx, mn, avg)
        ∧ mx ∈ rs.map tcpSpeed ∧ (∀ s ∈ rs.map tcpSpeed, s ≤ mx)
        ∧ mn ∈ rs.map tcpSpeed ∧ (∀ s ∈ rs.map tcpSpeed, mn ≤ s)
        ∧ avg * rs.length = (rs.map tcpSpeed).sum)
    ∧ (∀ rs : List UdpResult, rs ≠ [] →
      ∃ mx mn avg loss, process_udp_results (rs.map some) = some (mx, mn, avg, loss)
        ∧ mx ∈ rs.map udpSpeed ∧ (∀ s ∈ rs.map udpSpeed, s ≤ mx)
        ∧ mn ∈ rs.map udpSpeed ∧ (∀ s ∈ rs.map udpSpeed, mn ≤ s)
        ∧ avg * rs.length = (rs.map udpSpeed).sum
        ∧ loss = 100 - (rs.map percentageReceived).sum / rs.length)
    ∧ (∀ r : UdpResult, r.segments_expected = 0 → percentageReceived r = 0)
    ∧ process_tcp_results [some ⟨1, 1000⟩, some ⟨2, 4000⟩]
        = some (16000, 8000, 12000) := by
  refine ⟨?_, ?_, ?_, ?_⟩
  · intro rs hrs
    have hsp : ((rs.map some).filterMap fun f => f.map tcpSpeed) = rs.map tcpSpeed := by
      rw [filterMap_map_option, filterMap_id_map_some]
    have hne : rs.map tcpSpeed ≠ [] := by
      simpa using hrs
    have hlen : (rs.map tcpSpeed).length = rs.length := List.length_map _ _
    have hql : (rs.length : ℚ) ≠ 0 :=
      Nat.cast_ne_zero.mpr fun hc => hrs (List.length_eq_zero.mp hc)
    refine ⟨listMax (rs.map tcpSpeed), listMin (rs.map tcpSpeed),
      (rs.map tcpSpeed).sum / (rs.map tcpSpeed).length, ?_,
      (listMax_spec _ hne).1, (listMax_spec _ hne).2,
      (listMin_spec _ hne).1, (listMin_spec _ hne).2, ?_⟩
    · simp only [process_tcp_results, hsp, if_neg hne]
    · rw [hlen]
      exact div_mul_cancel₀ _ hql
  · intro rs hrs
    have hc : (rs.map some).filterMap id = rs := filterMap_id_map_some rs
    have hne : rs.map udpSpeed ≠ [] := by
      simpa using hrs
    have hpne : rs.map percentageReceived ≠ [] := by
      simpa using hrs
    have hlen : (rs.map udpSpeed).length = rs.length := List.length_map _ _
    have hplen : (rs.map percentageReceived).length = rs.length := List.length_map _ _
    have hql : (rs.length : ℚ) ≠ 0 :=
      Nat.cast_ne_zero.mpr fun hc0 => hrs (List.length_eq_zero.mp hc0)
    refine ⟨listMax (rs.map udpSpeed), listMin (rs.map udpSpeed),
      (rs.map udpSpeed).sum / (rs.map udpSpeed).length,
      100 - (rs.map percentageReceived).sum / (rs.map percentageReceived).length, ?_,
      (listMax_spec _ hne).1, (listMax_spec _ hne).2,
      (listMin_spec _ hne).1, (listMin_spec _ hne).2, ?_, ?_⟩
    · simp only [process_udp_results, hc, if_neg hne, if_neg hpne]
    · rw [hlen]
      exact div_mul_cancel₀ _ hql
    · rw [hplen]
  · intro r h
    simp [percentageReceived, h]
  · have h1 : tcpSpeed ⟨1, 1000⟩ = 8000 := by
      norm_num [tcpSpeed, BITS_IN_BYTE]
    have h2 : tcpSpeed ⟨2, 4000⟩ = 16000 := by
      norm_num [tcpSpeed, BITS_IN_BYTE]
    simp [process_tcp_results, h1, h2, listMax, listMin]
    norm_num [max_def, min_def]

/-- Witness for C6 at a two-element result list. -/
theorem claim_C6_aggregation_witness :
    ∃ mx mn avg,
      process_tcp_results ([(⟨1, 1000⟩ : TcpResult), ⟨2, 4000⟩].map some)
          = some (mx, mn, avg)
        ∧ mx ∈ [(⟨1, 1000⟩ : TcpResult), ⟨2, 4000⟩].map tcpSpeed
        ∧ (∀ s ∈ [(⟨1, 1000⟩ : TcpResult), ⟨2, 4000⟩].map tcpSpeed, s ≤ mx)
        ∧ mn ∈ [(⟨1, 1000⟩ : TcpResult), ⟨2, 4000⟩].map tcpSpeed
        ∧ (∀ s ∈ [(⟨1, 1000⟩ : TcpResult), ⟨2, 4000⟩].map tcpSpeed, mn ≤ s)
        ∧ avg * ([(⟨1, 1000⟩ : TcpResult), ⟨2, 4000⟩] : List TcpResult).length
          = ([(⟨1, 1000⟩ : TcpResult), ⟨2, 4000⟩].map tcpSpeed).sum :=
  claim_C6_aggregation.1 [⟨1, 1000⟩, ⟨2, 4000⟩] (by simp)

/-- Division that reports a zero divisor instead of Lean's total-division
convention: `none` models Python raising ZeroDivisionError. -/
def qdiv? (a b : ℚ) : Option ℚ := if b = 0 then none else some (a / b)

/-- process_tcp_results with its division by the result count routed through
`qdiv?`; the outer `none` marks a division by zero on the executed path. -/
def process_tcp_results_checked (futures : List (Option TcpResult)) :
    Option (Option (ℚ × ℚ × ℚ)) :=
  let all_speeds := futures.filterMap fun f => f.map tcpSpeed
  if all_speeds = [] then some none
  else
    match qdiv? all_speeds.sum all_speeds.length with
    | none => none
    | some avg => some (some (listMax all_speeds, listMin all_speeds, avg))

/-- percentageReceived with its division by segments_expected routed through
`qdiv?`. -/
def percentageReceived_checked (r : UdpResult) : Option ℚ :=
  if 0 < r.segments_expected then
    match qdiv? (r.segments_received : ℚ) r.segments_expected with
    | none => none
    | some q => some (q * 100)
  else some 0

/-- process_udp_results with every division it performs (by the result count
and by segments_expected) routed through `qdiv?`. -/
def process_udp_results_checked (futures : List (Option UdpResult)) :
    Option (Option (ℚ × ℚ × ℚ × ℚ)) :=
  let completed := futures.filterMap id
  let all_speeds := completed.map udpSpeed
  match completed.mapM percentageReceived_checked with
  | none => none
  | some total_percentage_received =>
    if all_speeds = [] then some none
    else
      match qdiv? all_speeds.sum all_speeds.length with
      | none => none
      | some avg =>
        match (if total_percentage_received = [] then some 0
          else qdiv? total_percentage_received.sum total_percentage_received.length) with
        | none => none
        | some avgp =>
          some (some (listMax all_speeds, listMin all_speeds, avg, 100 - avgp))

theorem percentageReceived_checked_eq (r : UdpResult) :
    percentageReceived_checked r = some (percentageReceived r) := by
  unfold percentageReceived_checked percentageReceived qdiv?
  by_cases h : 0 < r.segments_expected
  · have hne : (r.segments_expected : ℚ) ≠ 0 := Nat.cast_ne_zero.mpr (by omega)
    rw [if_pos h, if_pos h, if_neg hne]
  · rw [if_neg h, if_neg h]

theorem mapM_percentageReceived_checked (l : List UdpResult) :
    l.mapM percentageReceived_checked = some (l.map percentageReceived) := by
  induction l with
  | nil => rfl
  | cons r l ih =>
    rw [List.mapM_cons, percentageReceived_checked_eq, ih]
    rfl

/-- C7: with zero completed workers the aggregators return the defined
"no data" outcome `none` rather than a summary, and the checked variants
(every count and segments_expected division guarded) never hit a zero
divisor on any input: they always return `some` of the plain result. -/
theorem claim_C7_no_division_by_zero :
    (∀ futures : List (Option TcpResult), futures.filterMap id = [] →
        process_tcp_results futures = none)
    ∧ (∀ futures : List (Option UdpResult), futures.filterMap id = [] →
        process_udp_results futures = none)
    ∧ (∀ futures : List (Option TcpResult),
        process_tcp_results_checked futures = some (process_tcp_results futures))
    ∧ (∀ futures : List (Option UdpResult),
        process_udp_results_checked futures = some (process_udp_results futures)) := by
  refine ⟨?_, ?_, ?_, ?_⟩
  · intro futures h
    have hsp : (futures.filterMap fun f => f.map tcpSpeed) = [] := by
      rw [filterMap_map_option, h]
      rfl
    simp [process_tcp_results, hsp]
  · intro futures h
    simp [process_udp_results, h]
  · intro futures
    by_cases h : (futures.filterMap fun f => f.map tcpSpeed) = []
    · simp [process_tcp_results_checked, process_tcp_results, h]
    · have hlen : ((futures.filterMap fun f => f.map tcpSpeed).length : ℚ) ≠ 0 :=
        Nat.cast_ne_zero.mpr fun hc => h (List.length_eq_zero.mp hc)
      simp [process_tcp_results_checked, process_tcp_results, h, qdiv?, hlen]
  · intro futures
    rw [process_udp_results_checked, mapM_percentageReceived_checked]
    dsimp only []
    by_cases h : futures.filterMap id = []
    · simp [process_udp_results, h]
    · have hmne : (futures.filterMap id).map udpSpeed ≠ [] := by
        simpa using h
      have hpne : (futures.filterMap id).map percentageReceived ≠ [] := by
        simpa using h
      have hlen : (((futures.filterMap id).map udpSpeed).length : ℚ) ≠ 0 :=
        Nat.cast_ne_zero.mpr fun hc => hmne (List.length_eq_zero.mp hc)
      have hplen : (((futures.filterMap id).map percentageReceived).length : ℚ) ≠ 0 :=
        Nat.cast_ne_zero.mpr fun hc => hpne (List.length_eq_zero.mp hc)
      have hforall : ¬ ∀ a ∈ futures, a = none := by
        simpa using h
      simp [process_udp_results, hmne, hpne, qdiv?, hlen, hplen, hforall]

/-- Witness for C7: the empty future list yields the "no data" outcome. -/
theorem claim_C7_no_division_by_zero_witness :
    process_tcp_results ([] : List (Option TcpResult)) = none
    ∧ process_udp_results ([] : List (Option UdpResult)) = none :=
  ⟨claim_C7_no_division_by_zero.1 [] rfl, claim_C7_no_division_by_zero.2.1 [] rfl⟩

/-- C8: the aggregators compute the round summary over exactly the workers
that returned a result — the output depends only on the list of completed
results, and a worker that raised (a `none` future) anywhere in the list is
skipped without affecting the processing of its siblings or the round. -/
theorem claim_C8_worker_isolation :
    (∀ futures : List (Option TcpResult),
        process_tcp_results futures
          = process_tcp_results ((futures.filterMap id).map some))
    ∧ (∀ (pre post : List (Option TcpResult)),
        process_tcp_results (pre ++ none :: post) = process_tcp_results (pre ++ post))
    ∧ (∀ futures : List (Option UdpResult),
        process_udp_results futures
          = process_udp_results ((futures.filterMap id).map some))
    ∧ (∀ (pre post : List (Option UdpResult)),
        process_udp_results (pre ++ none :: post) = process_udp_results (pre ++ post)) := by
  refine ⟨?_, ?_, ?_, ?_⟩
  · intro futures
    simp only [process_tcp_results, filterMap_map_option, filterMap_id_map_some]
  · intro pre post
    simp only [process_tcp_results, List.filterMap_append, List.filterMap_cons]
    rfl
  · intro futures
    simp only [process_udp_results, filterMap_id_map_some]
  · intro pre post
    simp only [process_udp_results, List.filterMap_append, List.filterMap_cons]
    rfl

theorem filterMap_totalField_nil (ds : List (List Nat))
    (h : ds.filter decodesAsPayload = []) : ds.filterMap payloadTotalField = [] := by
  induction ds with
  | nil => rfl
  | cons d rest ih =>
    rw [List.filter_cons] at h
    cases hd : decodesAsPayload d with
    | true =>
      rw [hd] at h
      simp at h
    | false =>
      rw [hd] at h
      simp only [Bool.false_eq_true, if_false] at h
      rw [List.filterMap_cons, payloadTotalField_eq_none d hd]
      exact ih h

theorem getLastD_ne_zero (l : List Nat) :
    ∀ d, d ≠ 0 → (∀ x ∈ l, x ≠ 0) → l.getLastD d ≠ 0 := by
  induction l with
  | nil => intro d hd _; exact hd
  | cons a l ih =>
    intro d _ h
    rw [List.getLastD_cons]
    exact ih a (h a (by simp)) fun x hx => h x (by simp [hx])

/-- C9 counterexample: a datagram that decodes as a Payload whose
total_segments field is 0 makes the worker return
segments_expected = 0, so a worker-produced result can have
segments_expected = 0. -/
theorem claim_C9_counterexample :
    decodesAsPayload (build_message (Message.payload 0 0 [])) = true
    ∧ (perform_udp_download [build_message (Message.payload 0 0 [])] 2).2.2.2 = 0 := by
  exact ⟨by decide, by decide⟩

/-- C9 (amended): a UDP worker that decodes no Payload datagram before the
idle timeout returns segments_received = 0 and segments_expected = 1
(initialized to 1, not 0) and so contributes a 0% received (100% loss)
sample; and the returned segments_expected is nonzero whenever every decoded
Payload datagram carries a nonzero total_segments field — it can be 0 only
when some received Payload itself carried total_segments = 0. -/
theorem claim_C9_expected_segments (datagrams : List (List Nat)) (elapsed : ℚ) :
    (datagrams.filter decodesAsPayload = [] →
      perform_udp_download datagrams elapsed = (elapsed - UDP_TIMEOUT, 0, 0, 1)
      ∧ percentageReceived ⟨elapsed - UDP_TIMEOUT, 0, 0, 1⟩ = 0)
    ∧ ((∀ d ∈ datagrams, ∀ n i p, parse_message d = some (.payload n i p) → n ≠ 0) →
      (perform_udp_download datagrams elapsed).2.2.2 ≠ 0) := by
  constructor
  · intro h
    constructor
    · rw [perform_udp_download]
      rw [udpRecvLoop_spec datagrams 0 1 0]
      rw [h, filterMap_totalField_nil datagrams h]
      rfl
    · norm_num [percentageReceived]
  · intro hall
    rw [perform_udp_download, udpRecvLoop_spec datagrams 0 1 0]
    dsimp only []
    apply getLastD_ne_zero
    · exact one_ne_zero
    · intro x hx
      obtain ⟨dg, hdg, hsome⟩ := List.mem_filterMap.mp hx
      obtain ⟨i, p, hp⟩ := payloadTotalField_some dg x hsome
      exact hall dg hdg x i p hp

/-- Witness for C9 (amended) at a burst holding one undecodable datagram. -/
theorem claim_C9_expected_segments_witness :
    (perform_udp_download [[5]] 3 = (3 - UDP_TIMEOUT, 0, 0, 1)
      ∧ percentageReceived ⟨3 - UDP_TIMEOUT, 0, 0, 1⟩ = 0)
    ∧ (perform_udp_download [[5]] 3).2.2.2 ≠ 0 :=
  ⟨(claim_C9_expected_segments [[5]] 3).1 (by decide),
   (claim_C9_expected_segments [[5]] 3).2 (by
    intro d hd n i p hp
    rw [List.mem_singleton] at hd
    subst hd
    rw [show parse_message [5] = none from by decide] at hp
    exact Option.noConfusion hp)⟩

end NetworkSpeedTest
